import Mathlib

/-!
Shallow embedding of the routable-network parts of the ssb-sgis repository:
directed-network construction (gis_utils/directednetwork.py), the OD cost
matrix post-processing (gis_utils/od_cost_matrix.py) and the graph/split/
service-area machinery of the NetworkAnalysis class
(sgis/networkanalysis/networkanalysis.py).  Geometry is modelled as lists of
integer coordinates; floating-point costs are modelled as rationals, with
NaN cells as `Option.none`; fallible calls return `Except`.
-/

set_option linter.unusedVariables false

namespace Sgis

/-- A point coordinate.  The geometry kernel is an external collaborator, so
exact integer coordinates suffice for the properties under study. -/
abbrev Coord := Int × Int

/-- A line geometry as its ordered list of coordinates.  `shapely.reverse`
on a LineString reverses the coordinate order, i.e. `List.reverse`. -/
abbrev Line := List Coord

/-! ### Directed network construction (gis_utils/directednetwork.py) -/

/-- One row of the line GeoDataFrame handed to
`DirectedNetwork.make_directed_network`: the value of the direction column,
the line geometry, and the remaining numeric columns as an association list
(a key missing from a row is a NaN cell, as after `pandas.concat` of frames
with different columns). -/
structure DirRow where
  direction : String
  geom : Line
  cols : List (String × Rat)
deriving DecidableEq

/-- `DataFrame.rename(columns={old: new})` restricted to one row: the column
key is renamed, values are untouched.  Renaming a missing column is a no-op,
as in pandas. -/
def renameCol (old new : String) (r : DirRow) : DirRow :=
  { r with cols := r.cols.map (fun kv => (if kv.1 = old then new else kv.1, kv.2)) }

/-- `DataFrame.drop(columns=[c], errors="ignore")` restricted to one row. -/
def dropCol (c : String) (r : DirRow) : DirRow :=
  { r with cols := r.cols.filter (fun kv => kv.1 ≠ c) }

/-- Value of a numeric column in a row (`none` = NaN cell). -/
def colVal (c : String) (r : DirRow) : Option Rat :=
  (r.cols.find? (fun kv => kv.1 = c)).map (·.2)

/-- Set a numeric column of a row to a value (`none` removes the key,
modelling an assigned NaN, which no later comparison satisfies). -/
def setCol (c : String) (v : Option Rat) (r : DirRow) : DirRow :=
  match v with
  | none => dropCol c r
  | some q => { r with cols := (c, q) :: (dropCol c r).cols }

/-- `{ r with geom := reverse(r.geom) }`: `shapely.constructive.reverse`. -/
def revGeom (r : DirRow) : DirRow := { r with geom := r.geom.reverse }

/-- The `minute_cols` argument: a single column name (a Python `str`) or a
tuple of column names. -/
inductive MinuteCols where
  | str (s : String)
  | tup (l : List String)
deriving DecidableEq

/-- Python truthiness of the optional `minute_cols` argument: `None`, the
empty string and the empty tuple are falsy. -/
def minuteColsTruthy : Option MinuteCols → Bool
  | none => false
  | some (.str s) => !s.isEmpty
  | some (.tup l) => !l.isEmpty

/-- Lines 154-164 of `make_directed_network`: resolution of `minute_cols`
into the forward and backward minute column names `(min_f, min_t)`.
Mirrors the Python semantics exactly: `min_f, min_t = minute_cols,
minute_cols` is assigned first when the argument is a string, but `len` of a
string is its character count, so a single column name longer than two
characters raises ValueError, and a 2-character name is unpacked into its
two characters; a tuple longer than two raises ValueError; a one-element
tuple leaves `min_f` unassigned, a NameError at the later rename. -/
def resolve_minute_cols : MinuteCols → Except String (String × String)
  | .str s =>
    if s.length > 2 then
      .error "ValueError: minute_cols should be column name or tuple"
    else
      match s.toList with
      | [a, b] => .ok (String.mk [a], String.mk [b])
      | _ => .ok (s, s)
  | .tup l =>
    if l.length > 2 then
      .error "ValueError: minute_cols should be column name or tuple"
    else
      match l with
      | [a, b] => .ok (a, b)
      | _ => .error "NameError: min_f is not defined"

/-- Lines 146-177 of `make_directed_network`: split the rows on the
direction column into forward (`ft`), backward (`tf`) and both-ways rows,
rename the resolved minute columns onto the halves, reverse the geometry of
the duplicated both-ways copy and (when `reverse_tofrom`) of the backward
rows, and concatenate in source order `[both_ways, both_ways2, ft, tf]`.
Rows whose direction value is none of the three codes are dropped. -/
def directed_expansion (b f t : String) (ren : Option (String × String))
    (reverse_tofrom : Bool) (rows : List DirRow) : List DirRow :=
  let ft0 := rows.filter (fun r => r.direction == f)
  let tf0 := rows.filter (fun r => r.direction == t)
  let bw0 := rows.filter (fun r => r.direction == b)
  let (both_ways, both_ways2, ft, tf) :=
    match ren with
    | none => (bw0, bw0, ft0, tf0)
    | some (min_f, min_t) =>
      (bw0.map (renameCol min_f "minutes"),
       bw0.map (renameCol min_t "minutes"),
       ft0.map (renameCol min_f "minutes"),
       tf0.map (renameCol min_t "minutes"))
  let both_ways2 := both_ways2.map revGeom
  let tf := if reverse_tofrom then tf.map revGeom else tf
  both_ways ++ both_ways2 ++ ft ++ tf

/-- `minutes = length / speed * 16.6666666667` (line 204): the float
constant as an exact rational. -/
def minuteFactor : Rat := (166666666667 : Rat) / 10000000000

/-- gis_utils/directednetwork.py lines 76-217, `make_directed_network`.
`columns` are the column labels of the input GeoDataFrame, `crs_unit` the
unit name of its CRS axis, and `length_` the geometric length from the
external geometry kernel.  The direction-cardinality check at lines 132-138
is `all(gdf.loc[gdf[direction_col].isin(direction_vals_bft)])`: iterating a
DataFrame yields its column labels, so the check fails (raises) exactly when
some column label is falsy (an empty string), never on the direction values
themselves.  The final `_make_node_ids` / `_check_percent_bidirectional`
calls (network.py, not included under src/) are modelled from the spec:
node-id assignment enumerates line endpoints and adds id columns, leaving
the line rows unchanged (spec sec. 4.2). -/
def make_directed_network
    (columns : List String)
    (bft : List String)
    (minute_cols : Option MinuteCols)
    (speed_col : Option String)
    (default_speed : Option Rat)
    (flat_speed : Option Rat)
    (reverse_tofrom : Bool)
    (crs_unit : String)
    (length_ : Line → Rat)
    (rows : List DirRow) : Except String (List DirRow) :=
  let mcTruthy : Bool := minuteColsTruthy minute_cols
  let scTruthy : Bool := match speed_col with
    | none => false
    | some s => !s.isEmpty
  let fsTruthy : Bool := match flat_speed with
    | none => false
    | some q => q != 0
  if bft.length ≠ 3 then
    .error "ValueError: direction_vals_bft should be tuple with three values"
  else
    -- (warning when no derivation method is given: not an error)
    if ((if mcTruthy then 1 else 0) + (if scTruthy then 1 else 0)
        + (if fsTruthy then 1 else 0) : Nat) > 1 then
      .error "ValueError: can only calculate minutes from one source"
    else
      -- lines 132-138: `if not all(gdf.loc[...])` over the column labels
      if columns.any (fun c => c.isEmpty) then
        .error "ValueError: direction_col should have only three unique values"
      else
        match bft with
        | [b, f, t] =>
          -- (suspicious-ordering warning at lines 140-144: not an error)
          let columns1 := if mcTruthy then columns.erase "minutes" else columns
          let rows1 := if mcTruthy then rows.map (dropCol "minutes") else rows
          let renE : Except String (Option (String × String)) :=
            match minute_cols with
            | some mc =>
              if minuteColsTruthy (some mc) then
                match resolve_minute_cols mc with
                | .error e => .error e
                | .ok p => .ok (some p)
              else .ok none
            | none => .ok none
          match renE with
          | .error e => .error e
          | .ok ren =>
            let out := directed_expansion b f t ren reverse_tofrom rows1
            -- columns of the concatenated frame: union of the renamed labels
            let outCols :=
              match ren with
              | none => columns1
              | some (min_f, min_t) =>
                (columns1.map (fun c => if c = min_f then "minutes" else c)
                  ++ columns1.map (fun c => if c = min_t then "minutes" else c)).dedup
            if (fsTruthy || scTruthy) && crs_unit ≠ "metre" then
              .error "ValueError: the crs must have metre as units"
            else
              match speed_col with
              | some sc =>
                if scTruthy then
                  let filled :=
                    match default_speed with
                    | some d =>
                      out.map (fun r =>
                        match colVal sc r with
                        | none => setCol sc (some d) r
                        | some q => if q = 0 then setCol sc (some d) r else r)
                    | none => out
                  let badCount :=
                    (out.filter (fun r =>
                      match colVal sc r with
                      | none => true
                      | some q => q == 0)).length
                  if default_speed.isNone ∧ (badCount : Rat) > (out.length : Rat) / 20 then
                    .error "ValueError: speed_col has a lot of missing or 0 values"
                  else
                    let withMin := filled.map (fun r =>
                      match colVal sc r with
                      | none => setCol "minutes" none r
                      | some q => setCol "minutes" (some (length_ r.geom / q * minuteFactor)) r)
                    .ok (withMin.filter (fun r =>
                      match colVal "minutes" r with
                      | some q => decide (q ≥ 0)
                      | none => false))
                else
                  -- falsy speed_col behaves like no speed column
                  if "minutes" ∈ outCols then
                    .ok (out.filter (fun r =>
                      match colVal "minutes" r with
                      | some q => decide (q ≥ 0)
                      | none => false))
                  else .ok out
              | none =>
                match flat_speed with
                | some fs =>
                  if fsTruthy then
                    let withMin := out.map (fun r =>
                      setCol "minutes" (some (length_ r.geom / fs * minuteFactor)) r)
                    .ok (withMin.filter (fun r =>
                      match colVal "minutes" r with
                      | some q => decide (q ≥ 0)
                      | none => false))
                  else
                    if "minutes" ∈ outCols then
                      .ok (out.filter (fun r =>
                        match colVal "minutes" r with
                        | some q => decide (q ≥ 0)
                        | none => false))
                    else .ok out
                | none =>
                  if "minutes" ∈ outCols then
                    .ok (out.filter (fun r =>
                      match colVal "minutes" r with
                      | some q => decide (q ≥ 0)
                      | none => false))
                  else .ok out
        | _ => .error "ValueError: direction_vals_bft should be tuple with three values"

/-! ### OD cost matrix post-processing (gis_utils/od_cost_matrix.py) -/

/-- A cost reported by `igraph.Graph.distances`: a finite float or `inf`
for an unreachable pair (non-negative weights never yield `-inf` or NaN). -/
inductive RawCost where
  | fin (q : Rat)
  | inf
deriving DecidableEq

/-- One row of the OD result frame: origin and destination temp ids and the
cost cell (`none` = NaN). -/
structure ODRow where
  origin : Nat
  destination : Nat
  cost : Option Rat
deriving DecidableEq

/-- Last-binding-wins lookup, as in a Python dict built by comprehension
over key/value pairs (a duplicated key keeps its last value). -/
def lookup_last {α : Type} (k : Nat) : List (Nat × α) → Option α
  | [] => none
  | p :: ps =>
    match lookup_last k ps with
    | some v => some v
    | none => if p.1 = k then some p.2 else none

/-- Lines 41-54 of `od_cost_matrix` (all-pairs mode): the nested loop over
origin and destination temp ids, one row per pair with the distance the
graph backend reports for it. -/
def od_pairs (starts ends : List (Nat × Coord)) (dist : Nat → Nat → RawCost) :
    List (Nat × Nat × RawCost) :=
  starts.flatMap (fun s => ends.map (fun e => (s.1, e.1, dist s.1 e.1)))

/-- Lines 66-71: `df.replace([inf, -inf], nan).loc[(df[cost] > 0) |
(df[cost].isna())]`.  The boolean mask is computed on the original frame, so
an `inf` cost passes the mask (`inf > 0`) and only then becomes NaN, while a
cost of exactly 0 (or below) is dropped. -/
def od_clean (pairs : List (Nat × Nat × RawCost)) : List ODRow :=
  (pairs.filter (fun p =>
      match p.2.2 with
      | .fin q => decide (0 < q)
      | .inf => true)).map
    (fun p => ⟨p.1, p.2.1,
      match p.2.2 with
      | .fin q => some q
      | .inf => none⟩)

/-- Lines 73-74: `if cutoff:` (None and 0 are falsy) keeps the rows with
cost < cutoff; a NaN cost compares False and is dropped. -/
def od_cutoff (cutoff : Option Rat) (rows : List ODRow) : List ODRow :=
  match cutoff with
  | none => rows
  | some c =>
    if c = 0 then rows
    else rows.filter (fun r =>
      match r.cost with
      | some q => decide (q < c)
      | none => false)

/-- Insertion step of a stable insertion sort by a boolean `le`. -/
def insert_le {α : Type} (le : α → α → Bool) (x : α) : List α → List α
  | [] => [x]
  | y :: ys => if le x y then x :: y :: ys else y :: insert_le le x ys

/-- Stable insertion sort by a boolean `le`; models the ascending key order
of pandas `groupby`/`sort_values`. -/
def sort_by {α : Type} (le : α → α → Bool) : List α → List α
  | [] => []
  | x :: xs => insert_le le x (sort_by le xs)

/-- First row attaining the minimal cost of a list: pandas
`groupby(...).idxmin` keeps the first index on ties. -/
def first_min_row : List ODRow → Option ODRow
  | [] => none
  | r :: rs =>
    match first_min_row rs with
    | none => some r
    | some m => if m.cost.getD 0 < r.cost.getD 0 then some m else some r

/-- Lines 76-78: `if destination_count:` drops the NaN-cost rows, then keeps
per origin (groups in ascending origin order, as pandas `groupby` sorts its
keys) the first row of minimal cost; any truthy `destination_count` trims to
one row per origin. -/
def od_destination_count (dc : Option Nat) (rows : List ODRow) : List ODRow :=
  match dc with
  | none => rows
  | some d =>
    if d = 0 then rows
    else
      let kept := rows.filter (fun r => r.cost.isSome)
      (sort_by (fun a b => a ≤ b) (kept.map (·.origin)).dedup).filterMap
        (fun o => first_min_row (kept.filter (fun r => r.origin == o)))

/-- Lines 80-90: map origin and destination temp ids to the WKT of their
point geometry (dicts built by comprehension, so a duplicated id keeps its
last binding) and force the cost to 0 where the two WKTs coincide
(`np.where(out.wkt_ori != out.wkt_des, out[cost], 0)`).  A temp id missing
from a dict maps to NaN, and `NaN != NaN` is True in numpy, so such a row
keeps its cost.  Two points have equal WKT exactly when their coordinates
are equal. -/
def od_force_zero (starts ends : List (Nat × Coord)) (rows : List ODRow) :
    List ODRow :=
  rows.map (fun r =>
    match lookup_last r.origin starts, lookup_last r.destination ends with
    | some g1, some g2 => if g1 = g2 then { r with cost := some 0 } else r
    | _, _ => r)

/-- gis_utils/od_cost_matrix.py, `od_cost_matrix` in all-pairs mode
(`rowwise=False`), as a function of the start/end point tables (temp id and
point geometry per row) and the distances the graph backend reports.  The
`lines=True` branch only attaches a straight-line geometry column and does
not change the rows, so it is not part of the row model. -/
def od_cost_matrix (starts ends : List (Nat × Coord))
    (dist : Nat → Nat → RawCost) (cutoff : Option Rat)
    (destination_count : Option Nat) : List ODRow :=
  od_force_zero starts ends
    (od_destination_count destination_count
      (od_cutoff cutoff
        (od_clean (od_pairs starts ends dist))))

/-! ### Temporary line splitting (networkanalysis.py, _split_lines /
_unsplit_network) -/

/-- One line row of the network GeoDataFrame: geometry and the weight
column. -/
structure NetLine where
  geom : Line
  weight : Rat
deriving DecidableEq

/-- A network line row while a split is in effect: the added `meters_`
column (pre-split length), the pre-split id `temp_idx__` and the `splitted`
flag column produced by the splitting function. -/
structure SplitRow where
  geom : Line
  weight : Rat
  meters : Rat
  tempIdx : Nat
  splitted : Nat
deriving DecidableEq

/-- Modelled from the spec: `split_lines_by_nearest_point`
(geopandas_tools/line_operations.py, not included under src/) splits each
network line at the snap points of the query points within the search
tolerance (spec sections 5 and 6, `split_lines`).  The splitting decision is
abstracted as `pieces`, giving for each line (keyed by its `temp_idx__` tag)
the piece geometries it is split into, `[]` meaning the line is left
untouched.  A split line is replaced by its pieces, each carrying the
parent's attributes with the `splitted` flag set to 1; untouched rows keep
flag 0. -/
def split_lines_by_nearest_point (pieces : Nat → List Line)
    (rows : List SplitRow) : List SplitRow :=
  rows.flatMap (fun r =>
    match pieces r.tempIdx with
    | [] => [r]
    | ps => ps.map (fun g => { r with geom := g, splitted := 1 }))

/-- The network state while a split is in effect: the split line frame
(`network.gdf`) and the saved pre-split rows (`network._not_splitted`). -/
structure SplitNetworkState where
  gdf : List SplitRow
  not_splitted : List SplitRow
deriving DecidableEq

/-- networkanalysis.py lines 1412-1444 (`_split_lines`): tag each line with
its length (`meters_`) and a pre-split id (`temp_idx__` = row position),
split the lines at the query points, save the original rows of every line
that got split, and rescale the weight column by the new/old length ratio
(for an untouched line the ratio is new length over itself).  `length_` is
the geometric length computed by the external geometry kernel.  The
`source_target_weight` id column added later and the node-id columns do not
change the line rows and are not part of the row model. -/
def split_lines (length_ : Line → Rat) (pieces : Nat → List Line)
    (gdf : List NetLine) : SplitNetworkState :=
  let tagged := gdf.enum.map
    (fun p => SplitRow.mk p.2.geom p.2.weight (length_ p.2.geom) p.1 0)
  let lines := split_lines_by_nearest_point pieces tagged
  let splitted := (lines.filter (fun r => r.splitted == 1)).map (·.tempIdx)
  let not_splitted := tagged.filter (fun r => splitted.contains r.tempIdx)
  let adjusted := lines.map
    (fun r => { r with weight := r.weight * (length_ r.geom / r.meters) })
  ⟨adjusted, not_splitted⟩

/-- networkanalysis.py lines 1446-1452 (`_unsplit_network`): drop the rows
flagged as produced by splitting and append the saved original rows; the
`temp_idx__` tag is dropped (the `meters_` helper column is kept by the
source, which does not affect the line set). -/
def unsplit_network (st : SplitNetworkState) : List NetLine :=
  ((st.gdf.filter (fun r => r.splitted != 1)) ++ st.not_splitted).map
    (fun r => ⟨r.geom, r.weight⟩)

/-- networkanalysis.py `od_cost_matrix` control flow around the temporary
split (lines 451-484 together with `_prepare_network_analysis` and
`_get_edges_and_weights`, lines 1312-1410): when `rules.split_lines` is set
the network lines are split before the analysis, and `_unsplit_network`
runs only after the analysis result has been computed — there is no
try/finally, so when the analysis raises the exception propagates with the
network still split.  Returns whether an exception propagated and the
network line set after the call (the same control flow guards get_route,
get_k_routes, get_route_frequencies and the service-area methods). -/
def od_call_network_state (length_ : Line → Rat) (pieces : Nat → List Line)
    (split_lines_rule : Bool) (analysis_raises : Bool) (gdf : List NetLine) :
    Bool × List NetLine :=
  if split_lines_rule then
    let st := split_lines length_ pieces gdf
    if analysis_raises then
      (true, st.gdf.map (fun r => ⟨r.geom, r.weight⟩))
    else
      (false, unsplit_network st)
  else
    (analysis_raises, gdf)

/-! ### Service area (networkanalysis.py, service_area) -/

/-- One row returned by the `_service_area` helper: the origin temp id, the
break value (in the weight column), the edge id (`source_target_weight`)
and the edge geometry (a token, since the geometry kernel is external). -/
structure SAResultRow where
  origin : Nat
  breakVal : Rat
  edgeId : Nat
  geomTok : Nat
deriving DecidableEq

/-- One row of the final service-area result: the origin column after
mapping through the idx dict (`none` = NaN), the weight column (`none` =
NaN, as on the appended missing rows) and the dissolved geometry (`none` =
NaN, the token list standing for the union of the member geometries). -/
structure SARow where
  origin : Option Nat
  breakVal : Option Rat
  geom : Option (List Nat)
deriving DecidableEq

/-- Modelled from the spec: `_service_area`
(networkanalysis/_service_area.py, not included under src/) runs a
single-source shortest-distance computation from each origin and, for each
break, selects every network edge whose cumulative reachable cost is within
the break (spec section 4.6), one result row per (origin, break, edge);
`reach o b` abstracts the set of edges (id and geometry) reachable from
origin temp id `o` within break `b`.  An origin or break with no reachable
edge contributes no row, and every produced row carries a real geometry. -/
def service_area_rows (reach : Nat → Rat → List (Nat × Nat))
    (origin_ids : List Nat) (breaks : List Rat) : List SAResultRow :=
  origin_ids.flatMap (fun o => breaks.flatMap (fun b =>
    (reach o b).map (fun e => ⟨o, b, e.1, e.2⟩)))

/-- `DataFrame.drop_duplicates(keys)`: keep the first row for every key. -/
def drop_dups {α β : Type} [DecidableEq β] (key : α → β) :
    List α → List β → List α
  | [], _ => []
  | r :: rs, seen =>
    if key r ∈ seen then drop_dups key rs seen
    else r :: drop_dups key rs (key r :: seen)

/-- Lexicographic order on (origin, break) dissolve keys. -/
def sa_key_le (a b : Nat × Rat) : Bool :=
  a.1 < b.1 || (a.1 == b.1 && a.2 ≤ b.2)

/-- pandas `dissolve(by=["origin", weight])` on the service-area rows:
group by (origin temp id, break), groups in ascending key order, one output
row per group whose geometry is the union of the member geometries
(modelled as the list of their tokens in frame order). -/
def sa_dissolve (rows : List SAResultRow) : List (Nat × Rat × List Nat) :=
  (sort_by sa_key_le (rows.map (fun r => (r.origin, r.breakVal))).dedup).map
    (fun k => (k.1, k.2,
      (rows.filter (fun r => r.origin == k.1 && r.breakVal == k.2)).map
        (·.geomTok)))

/-- networkanalysis.py lines 990-1045 (`service_area` with the default
`dissolve=True`): sort the breaks, run `_service_area`, and — unless every
geometry is NaN, which under the helper model means no row at all, in which
case the raw (empty) result is returned untouched — drop duplicate
(edge, origin) pairs, dissolve per (origin, break), append one NaN-geometry
row per origin temp id absent from the result, and map the origin column
through the idx dict (temp id → caller index, built in _points.py, not
included under src/, modelled from the spec: "Origin/destination ids are
mapped back to the caller's original point-table index").  `origins` is the
caller's point table as (temp id, caller index) pairs. -/
def service_area (reach : Nat → Rat → List (Nat × Nat))
    (origins : List (Nat × Nat)) (breaks : List Rat) : List SARow :=
  let results := service_area_rows reach (origins.map Prod.fst)
    (sort_by (fun a b => a ≤ b) breaks)
  if results.isEmpty then []
  else
    let deduped := drop_dups (fun r => (r.edgeId, r.origin)) results []
    let dissolved := sa_dissolve deduped
    let present := dissolved.map (fun g => g.1)
    let missing := origins.filter (fun o => !present.contains o.1)
    let rows : List (Nat × Option Rat × Option (List Nat)) :=
      dissolved.map (fun g => (g.1, some g.2.1, some g.2.2))
        ++ missing.map (fun o => (o.1, none, none))
    rows.map (fun r => ⟨lookup_last r.1 origins, r.2.1, r.2.2⟩)

/-! ### Result id mapping (networkanalysis.py, od_cost_matrix lines
456-466) -/

/-- An OD result row after the wrapper mapped the temp ids back through the
idx dicts (`none` = a temp id missing from the dict, a NaN cell). -/
structure MappedODRow where
  origin : Option Nat
  destination : Option Nat
  cost : Option Rat
deriving DecidableEq

/-- networkanalysis.py lines 465-466: `results["origin"] =
results["origin"].map(self.origins.idx_dict)` and likewise for the
destination column — every helper result row has its origin and destination
temp ids replaced by the caller's point-table index.  The idx dicts
(_points.py, not included under src/) are modelled from the spec: each
query point gets a synthetic temp id and the dict maps it back to the
caller's original index. -/
def map_result_ids (origins destinations : List (Nat × Nat))
    (results : List ODRow) : List MappedODRow :=
  results.map (fun r =>
    ⟨lookup_last r.origin origins, lookup_last r.destination destinations,
      r.cost⟩)

/-! ### Graph construction (networkanalysis.py, _make_graph) -/

/-- The igraph graph as built by `_make_graph`: the edge list (named
vertices), the per-edge weight and id attributes and the directedness
flag. -/
structure IGraph where
  edges : List (String × String)
  weights : List Rat
  edgeIds : List String
  directed : Bool
deriving DecidableEq

/-- networkanalysis.py lines 1479-1499 (`_make_graph`): builds the graph
from the edge and weight lists and asserts `len(edges) == len(weights)` and
`min(graph.es["weight"]) >= 0` after construction; the asserts are modelled
as AssertionError results, and Python's `min` of an empty sequence raises
ValueError. -/
def make_graph (edges : List (String × String)) (weights : List Rat)
    (edge_ids : List String) (directed : Bool) : Except String IGraph :=
  if edges.length ≠ weights.length then
    .error "AssertionError: len(edges) != len(weights)"
  else
    let graph : IGraph := ⟨edges, weights, edge_ids, directed⟩
    match weights with
    | [] => .error "ValueError: min() arg is an empty sequence"
    | w :: ws =>
      if ws.foldl min w ≥ 0 then .ok graph
      else .error "AssertionError: negative edge weight"

/-! ### Helper lemmas for the direction expansion -/

theorem direction_renameCol (old new : String) (r : DirRow) :
    (renameCol old new r).direction = r.direction := rfl

theorem geom_renameCol (old new : String) (r : DirRow) :
    (renameCol old new r).geom = r.geom := rfl

theorem direction_revGeom (r : DirRow) : (revGeom r).direction = r.direction := rfl

theorem geom_revGeom (r : DirRow) : (revGeom r).geom = r.geom.reverse := rfl

/-- Filtering on the direction column commutes with a map that preserves the
direction column. -/
theorem dir_preserving_filter_map {g : DirRow → DirRow}
    (hg : ∀ r, (g r).direction = r.direction) (c : String) (l : List DirRow) :
    (l.map g).filter (fun r => r.direction == c)
      = (l.filter (fun r => r.direction == c)).map g := by
  induction l with
  | nil => rfl
  | cons x xs ih =>
    simp only [List.map_cons, List.filter_cons, hg x]
    cases hc : (x.direction == c) with
    | false => simpa using ih
    | true => simpa using ih

theorem filter_dir_self (c : String) (l : List DirRow) :
    (l.filter (fun r => r.direction == c)).filter (fun r => r.direction == c)
      = l.filter (fun r => r.direction == c) := by
  rw [List.filter_filter]
  simp

theorem filter_dir_ne {c d : String} (h : c ≠ d) (l : List DirRow) :
    (l.filter (fun r => r.direction == c)).filter (fun r => r.direction == d) = [] := by
  induction l with
  | nil => rfl
  | cons x xs ih =>
    simp only [List.filter_cons]
    cases hc : (x.direction == c) with
    | false => simpa using ih
    | true =>
      have : (x.direction == d) = false := by
        simp only [beq_iff_eq] at hc
        simp only [beq_eq_false_iff_ne, ne_eq, hc]
        exact h
      simpa [this] using ih

/-! ### Claim C5: direction expansion row counts and geometry reversal -/

/-- Claim C5: in `make_directed_network` (with `reverse_tofrom=True`), every
input row coded with the both-ways value produces exactly 2 output rows
whose geometries are mutual reverses of each other (the first copy
unchanged, the duplicated copy reversed, so each is the reverse of the
other), every row coded forward produces exactly 1 output row with
unchanged geometry, and every row coded backward produces exactly 1 output
row with reversed geometry — stated on the direction expansion of lines
146-177, for any resolved minute-column renaming and distinct direction
codes. -/
theorem make_directed_network_direction_duplication
    (b f t : String) (ren : Option (String × String)) (rows : List DirRow)
    (hbf : b ≠ f) (hbt : b ≠ t) (hft : f ≠ t) :
    ((directed_expansion b f t ren true rows).filter
        (fun r => r.direction == b)).map (·.geom)
      = (rows.filter (fun r => r.direction == b)).map (·.geom)
        ++ (rows.filter (fun r => r.direction == b)).map (fun r => r.geom.reverse)
    ∧ ((directed_expansion b f t ren true rows).filter
        (fun r => r.direction == f)).map (·.geom)
      = (rows.filter (fun r => r.direction == f)).map (·.geom)
    ∧ ((directed_expansion b f t ren true rows).filter
        (fun r => r.direction == t)).map (·.geom)
      = (rows.filter (fun r => r.direction == t)).map (fun r => r.geom.reverse) := by
  have hfb : f ≠ b := Ne.symm hbf
  have htb : t ≠ b := Ne.symm hbt
  have htf : t ≠ f := Ne.symm hft
  cases ren with
  | none =>
    refine ⟨?_, ?_, ?_⟩ <;>
      simp [directed_expansion, List.filter_append, filter_dir_self,
        dir_preserving_filter_map direction_revGeom,
        filter_dir_ne hbf, filter_dir_ne hbt, filter_dir_ne hft,
        filter_dir_ne hfb, filter_dir_ne htb, filter_dir_ne htf,
        List.map_map, Function.comp_def, geom_revGeom]
  | some p =>
    obtain ⟨mf, mt⟩ := p
    have hcomp := @dir_preserving_filter_map
      (fun x => revGeom (renameCol mt "minutes" x)) (fun _ => rfl)
    refine ⟨?_, ?_, ?_⟩ <;>
      simp [directed_expansion, List.filter_append, filter_dir_self,
        dir_preserving_filter_map direction_revGeom,
        dir_preserving_filter_map (direction_renameCol mf "minutes"),
        dir_preserving_filter_map (direction_renameCol mt "minutes"),
        hcomp,
        filter_dir_ne hbf, filter_dir_ne hbt, filter_dir_ne hft,
        filter_dir_ne hfb, filter_dir_ne htb, filter_dir_ne htf,
        List.map_map, Function.comp_def, geom_revGeom, geom_renameCol]

/-- Witness for C5: one both-ways row with codes ("B", "F", "T") yields the
original geometry followed by its reverse. -/
theorem make_directed_network_direction_duplication_witness :
    ((directed_expansion "B" "F" "T" none true
        [⟨"B", [((0 : Int), (0 : Int)), (1, 0)], []⟩]).filter
      (fun r => r.direction == "B")).map (·.geom)
      = [[((0 : Int), (0 : Int)), (1, 0)], [(1, 0), (0, 0)]] := by
  have h := make_directed_network_direction_duplication "B" "F" "T" none
      [⟨"B", [(0, 0), (1, 0)], []⟩] (by decide) (by decide) (by decide)
  exact h.1.trans (by decide)

/-! ### Claim C10: single minute column name longer than two characters -/

/-- Claim C10: when `minute_cols` is passed as a single string column name
of length greater than two characters, `make_directed_network` raises
ValueError rather than using that column for both directions, because
`len(minute_cols)` is the character count of the string itself (the earlier
validations pass: three direction codes, no competing cost derivation, and
non-empty column labels). -/
theorem minute_cols_single_long_name_raises
    (columns bft : List String) (s : String)
    (reverse_tofrom : Bool) (crs_unit : String) (length_ : Line → Rat)
    (rows : List DirRow)
    (hcols : ∀ c ∈ columns, ¬c.isEmpty = true)
    (hbft : bft.length = 3)
    (hs : s.length > 2) :
    make_directed_network columns bft (some (.str s)) none none none
        reverse_tofrom crs_unit length_ rows
      = .error "ValueError: minute_cols should be column name or tuple" := by
  obtain ⟨b, f, t, rfl⟩ : ∃ b f t, bft = [b, f, t] := by
    match bft, hbft with
    | [b, f, t], _ => exact ⟨b, f, t, rfl⟩
  have hsne : s.isEmpty = false := by
    cases h : s.isEmpty with
    | false => rfl
    | true =>
      exfalso
      have : s = "" := (String.isEmpty_iff s).mp h
      rw [this] at hs
      exact absurd hs (by decide)
  have hany : columns.any (fun c => c.isEmpty) = false := by
    rw [List.any_eq_false]
    exact hcols
  simp [make_directed_network, minuteColsTruthy, resolve_minute_cols, hsne,
    hs, hany]

/-- Witness for C10: the 9-character column name "drivetime" raises. -/
theorem minute_cols_single_long_name_raises_witness :
    make_directed_network ["oneway"] ["B", "F", "T"]
        (some (.str "drivetime")) none none none true "metre" (fun _ => 0) []
      = .error "ValueError: minute_cols should be column name or tuple" :=
  minute_cols_single_long_name_raises ["oneway"] ["B", "F", "T"] "drivetime"
    true "metre" (fun _ => 0) [] (by decide) (by decide) (by decide)

/-! ### Claim C9 supporting lemma -/

theorem foldl_min_le_init (a : Rat) (l : List Rat) : l.foldl min a ≤ a := by
  induction l generalizing a with
  | nil => simp
  | cons y ys ih =>
    simpa using le_trans (ih (min a y)) (min_le_left a y)

theorem foldl_min_le_mem {x a : Rat} {l : List Rat} (hx : x ∈ l) :
    l.foldl min a ≤ x := by
  induction l generalizing a with
  | nil => cases hx
  | cons y ys ih =>
    rcases List.mem_cons.mp hx with h | h
    · subst h
      simpa using le_trans (foldl_min_le_init (min a x) ys) (min_le_right a x)
    · exact ih h

theorem foldl_min_le {w x : Rat} {ws : List Rat} (hx : x ∈ w :: ws) :
    ws.foldl min w ≤ x := by
  rcases List.mem_cons.mp hx with h | h
  · subst h
    exact foldl_min_le_init x ws
  · exact foldl_min_le_mem h

/-! ### Claim C9: non-negative edge weights at graph build time -/

/-- Claim C9: every graph produced at graph-build time has only
non-negative edge weights — `_make_graph` checks the minimum edge weight
after construction and a graph containing a negative-weight edge is never
returned (the build errors instead). -/
theorem make_graph_nonnegative_weights
    (edges : List (String × String)) (weights : List Rat)
    (edge_ids : List String) (directed : Bool) (g : IGraph)
    (h : make_graph edges weights edge_ids directed = .ok g) :
    ∀ w ∈ g.weights, 0 ≤ w := by
  unfold make_graph at h
  by_cases hlen : edges.length ≠ weights.length
  · rw [if_pos hlen] at h
    cases h
  · rw [if_neg hlen] at h
    cases weights with
    | nil => cases h
    | cons w ws =>
      simp only at h
      by_cases hmin : ws.foldl min w ≥ 0
      · rw [if_pos hmin] at h
        obtain rfl := Except.ok.inj h
        intro x hx
        exact le_trans hmin (foldl_min_le hx)
      · rw [if_neg hmin] at h
        cases h

/-- Witness for C9: a one-edge build succeeds and its weight is
non-negative. -/
theorem make_graph_nonnegative_weights_witness :
    make_graph [("a", "b")] [(1 : Rat)] ["ab1"] true
      = .ok ⟨[("a", "b")], [1], ["ab1"], true⟩ ∧ (0 : Rat) ≤ 1 :=
  ⟨by rfl,
    make_graph_nonnegative_weights [("a", "b")] [(1 : Rat)] ["ab1"] true
      ⟨[("a", "b")], [1], ["ab1"], true⟩ (by rfl) 1 (by simp)⟩

/-! ### Helper lemmas for the split/unsplit round trip -/

theorem filter_map_of_pres {α : Type} (p : α → Bool) (g : α → α)
    (hg : ∀ x, p (g x) = p x) (l : List α) :
    (l.map g).filter p = (l.filter p).map g := by
  induction l with
  | nil => rfl
  | cons x xs ih =>
    simp only [List.map_cons, List.filter_cons, hg x]
    cases hc : p x with
    | false => simpa using ih
    | true => simpa using ih

/-- Membership characterisation of the split output. -/
theorem mem_split_iff (pieces : Nat → List Line) (rows : List SplitRow)
    (x : SplitRow) :
    x ∈ split_lines_by_nearest_point pieces rows
      ↔ ∃ r ∈ rows, (pieces r.tempIdx = [] ∧ x = r)
          ∨ ∃ g ∈ pieces r.tempIdx, x = { r with geom := g, splitted := 1 } := by
  simp only [split_lines_by_nearest_point, List.mem_flatMap]
  constructor
  · rintro ⟨r, hr, hx⟩
    refine ⟨r, hr, ?_⟩
    cases hp : pieces r.tempIdx with
    | nil =>
      rw [hp] at hx
      simp only [List.mem_singleton] at hx
      exact Or.inl ⟨rfl, hx⟩
    | cons g gs =>
      rw [hp] at hx
      simp only [List.mem_map] at hx
      obtain ⟨g', hg', rfl⟩ := hx
      exact Or.inr ⟨g', hp ▸ hg', rfl⟩
  · rintro ⟨r, hr, h | ⟨g, hg, rfl⟩⟩
    · obtain ⟨hp, hxr⟩ := h
      refine ⟨r, hr, ?_⟩
      simp [hp, hxr]
    · refine ⟨r, hr, ?_⟩
      cases hp : pieces r.tempIdx with
      | nil => rw [hp] at hg; cases hg
      | cons g' gs =>
        simp only [List.mem_map]
        exact ⟨g, hp ▸ hg, rfl⟩

/-- Rows of the split output that are not flagged as split pieces are
exactly the untouched input rows, provided the inputs carry flag 0. -/
theorem split_filter_unsplit (pieces : Nat → List Line) (rows : List SplitRow)
    (h0 : ∀ r ∈ rows, r.splitted = 0) :
    (split_lines_by_nearest_point pieces rows).filter (fun r => r.splitted != 1)
      = rows.filter (fun r => (pieces r.tempIdx).isEmpty) := by
  induction rows with
  | nil => rfl
  | cons x xs ih =>
    have hx : x.splitted = 0 := h0 x (List.mem_cons_self _ _)
    have ihx := ih (fun r hr => h0 r (List.mem_cons_of_mem _ hr))
    simp only [split_lines_by_nearest_point, List.flatMap_cons,
      List.filter_append] at ihx ⊢
    cases hp : pieces x.tempIdx with
    | nil =>
      simp [hp, hx, ihx, List.filter_cons]
    | cons g gs =>
      have hnil : ((g :: gs).map
          (fun g => { x with geom := g, splitted := 1 })).filter
            (fun r => r.splitted != 1) = [] := by
        rw [List.filter_eq_nil_iff]
        intro a ha
        simp only [List.mem_map] at ha
        obtain ⟨g', _, rfl⟩ := ha
        simp
      simp [hp, hnil, ihx, List.filter_cons]

/-- An id is among the split-piece ids exactly when its pieces list is
non-empty and some input row carries it, provided the inputs carry flag
0. -/
theorem contains_splitted_iff (pieces : Nat → List Line) (rows : List SplitRow)
    (h0 : ∀ r ∈ rows, r.splitted = 0) (i : Nat) :
    ((((split_lines_by_nearest_point pieces rows).filter
        (fun r => r.splitted == 1)).map (·.tempIdx)).contains i = true)
      ↔ (∃ r ∈ rows, r.tempIdx = i) ∧ pieces i ≠ [] := by
  have hciff : ∀ (L : List Nat) (a : Nat), (L.contains a = true) ↔ a ∈ L := by
    intro L a
    simp [List.contains, List.elem_iff]
  rw [hciff]
  simp only [List.mem_map, List.mem_filter]
  constructor
  · rintro ⟨x, ⟨hxm, hx1⟩, rfl⟩
    rw [mem_split_iff] at hxm
    obtain ⟨r, hr, h | ⟨g, hg, rfl⟩⟩ := hxm
    · obtain ⟨hp, hxr⟩ := h
      exfalso
      rw [hxr, h0 r hr] at hx1
      exact absurd hx1 (by decide)
    · exact ⟨⟨r, hr, rfl⟩, fun hnil => by rw [hnil] at hg; cases hg⟩
  · rintro ⟨⟨r, hr, rfl⟩, hne⟩
    obtain ⟨g, hg⟩ := List.exists_mem_of_ne_nil _ hne
    refine ⟨{ r with geom := g, splitted := 1 }, ⟨?_, rfl⟩, rfl⟩
    rw [mem_split_iff]
    exact ⟨r, hr, Or.inr ⟨g, hg, rfl⟩⟩

theorem enumFrom_map_snd_map {α β : Type} (f : α → β) (n : Nat) (l : List α) :
    (l.enumFrom n).map (fun p => f p.2) = l.map f := by
  induction l generalizing n with
  | nil => rfl
  | cons x xs ih => simp [List.enumFrom_cons, ih]

/-- The split/unsplit round trip restores the multiset of line
geometries. -/
theorem unsplit_split_geoms (length_ : Line → Rat) (pieces : Nat → List Line)
    (gdf : List NetLine) :
    ((unsplit_network (split_lines length_ pieces gdf)).map (·.geom)).Perm
      (gdf.map (·.geom)) := by
  simp only [split_lines, unsplit_network]
  set tagged := gdf.enum.map
    (fun p => SplitRow.mk p.2.geom p.2.weight (length_ p.2.geom) p.1 0)
    with htagged
  have h0 : ∀ r ∈ tagged, r.splitted = 0 := by
    intro r hr
    rw [htagged] at hr
    simp only [List.mem_map] at hr
    obtain ⟨p, _, rfl⟩ := hr
    rfl
  have hadj : ((split_lines_by_nearest_point pieces tagged).map
        (fun r => { r with weight := r.weight * (length_ r.geom / r.meters) })).filter
        (fun r => r.splitted != 1)
      = ((split_lines_by_nearest_point pieces tagged).filter
          (fun r => r.splitted != 1)).map
        (fun r => { r with weight := r.weight * (length_ r.geom / r.meters) }) :=
    filter_map_of_pres (fun r : SplitRow => r.splitted != 1)
      (fun r : SplitRow => { r with weight := r.weight * (length_ r.geom / r.meters) })
      (fun _ => rfl) _
  rw [hadj, split_filter_unsplit pieces tagged h0]
  have hns : tagged.filter
      (fun r => (((split_lines_by_nearest_point pieces tagged).filter
        (fun r => r.splitted == 1)).map (·.tempIdx)).contains r.tempIdx)
      = tagged.filter (fun r => !(pieces r.tempIdx).isEmpty) := by
    apply List.filter_congr
    intro r hr
    cases hb : (((split_lines_by_nearest_point pieces tagged).filter
        (fun r => r.splitted == 1)).map (·.tempIdx)).contains r.tempIdx with
    | true =>
      have := (contains_splitted_iff pieces tagged h0 r.tempIdx).mp hb
      have hne := this.2
      cases hp : pieces r.tempIdx with
      | nil => exact absurd hp hne
      | cons g gs => simp [hp]
    | false =>
      cases hp : pieces r.tempIdx with
      | nil => simp [hp]
      | cons g gs =>
        exfalso
        have : (((split_lines_by_nearest_point pieces tagged).filter
            (fun r => r.splitted == 1)).map (·.tempIdx)).contains r.tempIdx = true :=
          (contains_splitted_iff pieces tagged h0 r.tempIdx).mpr
            ⟨⟨r, hr, rfl⟩, by rw [hp]; exact fun h => List.cons_ne_nil g gs h⟩
        rw [this] at hb
        cases hb
  rw [hns]
  have hmaps :
      (((tagged.filter (fun r : SplitRow => (pieces r.tempIdx).isEmpty)).map
          (fun r : SplitRow =>
            { r with weight := r.weight * (length_ r.geom / r.meters) })
        ++ tagged.filter (fun r : SplitRow => !(pieces r.tempIdx).isEmpty)).map
        (fun r : SplitRow => NetLine.mk r.geom r.weight)).map
          (fun x : NetLine => x.geom)
      = ((tagged.filter (fun r : SplitRow => (pieces r.tempIdx).isEmpty))
          ++ tagged.filter (fun r : SplitRow => !(pieces r.tempIdx).isEmpty)).map
            (fun x : SplitRow => x.geom) := by
    simp [List.map_append, List.map_map, Function.comp_def]
  rw [hmaps]
  have hperm := (List.filter_append_perm
    (fun r : SplitRow => (pieces r.tempIdx).isEmpty) tagged).map (·.geom)
  refine hperm.trans ?_
  rw [htagged]
  have : (gdf.enum.map
      (fun p => SplitRow.mk p.2.geom p.2.weight (length_ p.2.geom) p.1 0)).map
        (·.geom) = gdf.enum.map (fun p => p.2.geom) := by
    simp [List.map_map, Function.comp_def]
  rw [this]
  rw [show gdf.enum = gdf.enumFrom 0 from rfl,
    enumFrom_map_snd_map (fun x : NetLine => x.geom) 0 gdf]

/-! ### Claim C6: split/unsplit round trip -/

/-- Claim C6: splitting the network lines at snap points and then running
the unsplit cleanup restores the network line set exactly — the original
line count and the original line geometries (as a multiset: the source
re-appends the saved originals of the split lines after the untouched
rows, so the line set, not the row order, is restored). -/
theorem split_then_unsplit_restores_lines (length_ : Line → Rat)
    (pieces : Nat → List Line) (gdf : List NetLine) :
    ((unsplit_network (split_lines length_ pieces gdf)).map (·.geom)).Perm
      (gdf.map (·.geom))
    ∧ (unsplit_network (split_lines length_ pieces gdf)).length = gdf.length := by
  refine ⟨unsplit_split_geoms length_ pieces gdf, ?_⟩
  have h := (unsplit_split_geoms length_ pieces gdf).length_eq
  simpa using h

/-! ### Claim C1: the unsplit cleanup and exception paths -/

/-- Counterexample to C1 as stated: with `rules.split_lines` set, an
analysis that raises after the split leaves the network split — a one-line
network split into two pieces is not restored when the exception
propagates, so the undo step does not run on every exit path. -/
theorem split_not_undone_on_raise_counterexample :
    ¬ (((od_call_network_state (fun _ => 1)
          (fun i => if i = 0 then [[((0 : Int), (0 : Int)), (1, 0)], [(1, 0), (2, 0)]] else [])
          true true [⟨[((0 : Int), (0 : Int)), (2, 0)], 1⟩]).2.map (·.geom)).Perm
        (([⟨[((0 : Int), (0 : Int)), (2, 0)], 1⟩] : List NetLine).map (·.geom))) := by
  decide

/-- Claim C1 as amended: the unsplit cleanup runs on the normal return path
only — an analysis call with `rules.split_lines` set that completes without
raising restores the pre-call line set before returning (there is no
try/finally, so the raising path, refuted above, keeps the network
split). -/
theorem unsplit_runs_on_normal_exit (length_ : Line → Rat)
    (pieces : Nat → List Line) (gdf : List NetLine) :
    (od_call_network_state length_ pieces true false gdf).1 = false
    ∧ (((od_call_network_state length_ pieces true false gdf).2.map (·.geom)).Perm
        (gdf.map (·.geom))) := by
  constructor
  · rfl
  · exact unsplit_split_geoms length_ pieces gdf

/-! ### Claim C3: direction-cardinality validation never fires -/

/-- Claim C3 (code bug): with a direction column holding four distinct
codes (B, FT, TF, X) and `direction_vals_bft=(B, FT, TF)`, the call
completes without error — the cardinality check calls `all` on a DataFrame,
which iterates its column labels ("oneway", "geometry", both non-empty
strings), so it never inspects the direction values and never raises,
contrary to its own error message "should have only three unique
values". -/
theorem direction_cardinality_not_rejected :
    (make_directed_network ["oneway", "geometry"] ["B", "FT", "TF"] none none
        none none true "metre" (fun _ => 0)
        [⟨"B", [(0, 0), (1, 0)], []⟩, ⟨"FT", [(0, 0), (2, 0)], []⟩,
         ⟨"TF", [(0, 0), (3, 0)], []⟩, ⟨"X", [(0, 0), (4, 0)], []⟩]).isOk = true
    ∧ (([⟨"B", [(0, 0), (1, 0)], []⟩, ⟨"FT", [(0, 0), (2, 0)], []⟩,
         ⟨"TF", [(0, 0), (3, 0)], []⟩, ⟨"X", [(0, 0), (4, 0)], []⟩] : List DirRow).map
          (fun r => r.direction)).dedup.length = 4 := by
  decide

/-! ### Lookup lemmas for the id dictionaries -/

theorem lookup_last_eq_none {α : Type} {k : Nat} :
    ∀ {l : List (Nat × α)}, k ∉ l.map Prod.fst → lookup_last k l = none
  | [], _ => rfl
  | p :: ps, h => by
    have hps : k ∉ ps.map Prod.fst := fun hm => h (by simp [hm])
    have hpk : p.1 ≠ k := by
      intro he
      exact h (by simp [he])
    simp only [lookup_last, lookup_last_eq_none hps]
    simp [hpk]

theorem lookup_last_of_nodup {α : Type} {l : List (Nat × α)}
    (hnd : (l.map Prod.fst).Nodup) {p : Nat × α} (hp : p ∈ l) :
    lookup_last p.1 l = some p.2 := by
  induction l with
  | nil => cases hp
  | cons q qs ih =>
    rcases List.mem_cons.mp hp with h | h
    · subst h
      have hqn : p.1 ∉ qs.map Prod.fst := by
        simp only [List.map_cons, List.nodup_cons] at hnd
        exact hnd.1
      simp [lookup_last, lookup_last_eq_none hqn]
    · have hnd' : (qs.map Prod.fst).Nodup := by
        simp only [List.map_cons, List.nodup_cons] at hnd
        exact hnd.2
      simp [lookup_last, ih hnd' h]

/-! ### Claim C2: identical-point OD pairs -/

/-- Counterexample to C2 as stated: one origin and one destination at the
same point, with the path computation reporting cost 0 (as it does when
both snap to the same node) — the `(df[cost] > 0) | isna` filter drops the
row before the identical-point forcing runs, so the returned table has no
row for the pair at all, let alone one with cost 0. -/
theorem identical_pair_zero_cost_dropped_counterexample :
    od_cost_matrix [(0, ((5 : Int), (5 : Int)))] [(1, (5, 5))]
        (fun _ _ => .fin 0) none none = []
    ∧ ¬ ∃ r ∈ od_cost_matrix [(0, ((5 : Int), (5 : Int)))] [(1, (5, 5))]
        (fun _ _ => .fin 0) none none, r.cost = some 0 := by
  constructor
  · decide
  · decide

/-- Claim C2 as amended: for an OD pair whose two points are geometrically
identical (no cutoff, no destination_count), the returned table contains a
row for the pair with cost exactly 0 whenever the path computation reports
a strictly positive or infinite cost; when it reports a non-positive cost
the pair is dropped from the table entirely. -/
theorem od_identical_pair_cost_forced_zero
    (starts ends : List (Nat × Coord)) (dist : Nat → Nat → RawCost)
    (s e : Nat × Coord)
    (hs : s ∈ starts) (he : e ∈ ends)
    (hns : (starts.map Prod.fst).Nodup) (hne : (ends.map Prod.fst).Nodup)
    (hgeom : s.2 = e.2) :
    ((dist s.1 e.1 = .inf ∨ (∃ q, dist s.1 e.1 = .fin q ∧ 0 < q)) →
      ∃ r ∈ od_cost_matrix starts ends dist none none,
        r.origin = s.1 ∧ r.destination = e.1 ∧ r.cost = some 0)
    ∧ (∀ q, dist s.1 e.1 = .fin q → q ≤ 0 →
        ∀ r ∈ od_cost_matrix starts ends dist none none,
          ¬(r.origin = s.1 ∧ r.destination = e.1)) := by
  have hpair : (s.1, e.1, dist s.1 e.1) ∈ od_pairs starts ends dist := by
    simp only [od_pairs, List.mem_flatMap, List.mem_map]
    exact ⟨s, hs, e, he, rfl⟩
  constructor
  · intro hcase
    have hcond : (match dist s.1 e.1 with
        | .fin q => decide (0 < q)
        | .inf => true) = true := by
      rcases hcase with h | ⟨q, hq, hqpos⟩
      · rw [h]
      · rw [hq]
        simpa using hqpos
    have hr0 : (⟨s.1, e.1,
        match dist s.1 e.1 with
        | .fin q => some q
        | .inf => none⟩ : ODRow) ∈ od_clean (od_pairs starts ends dist) := by
      simp only [od_clean, List.mem_map]
      refine ⟨(s.1, e.1, dist s.1 e.1), List.mem_filter.mpr ⟨hpair, hcond⟩, rfl⟩
    refine ⟨⟨s.1, e.1, some 0⟩, ?_, rfl, rfl, rfl⟩
    simp only [od_cost_matrix, od_cutoff, od_destination_count, od_force_zero,
      List.mem_map]
    refine ⟨_, hr0, ?_⟩
    rw [lookup_last_of_nodup hns hs, lookup_last_of_nodup hne he]
    simp [hgeom]
  · intro q hq hqle r hr ⟨hro, hrd⟩
    simp only [od_cost_matrix, od_cutoff, od_destination_count, od_force_zero,
      List.mem_map, od_clean] at hr
    obtain ⟨r0, ⟨p, hp, rfl⟩, hrr⟩ := hr
    have hpo : p.1 = s.1 := by
      have : r.origin = p.1 := by
        rw [← hrr]
        cases h1 : lookup_last p.1 starts <;> cases h2 : lookup_last p.2.1 ends <;>
          simp [h1, h2]
        split <;> rfl
      rw [← this, hro]
    have hpd : p.2.1 = e.1 := by
      have : r.destination = p.2.1 := by
        rw [← hrr]
        cases h1 : lookup_last p.1 starts <;> cases h2 : lookup_last p.2.1 ends <;>
          simp [h1, h2]
        split <;> rfl
      rw [← this, hrd]
    obtain ⟨hpm, hpc⟩ := List.mem_filter.mp hp
    have hform : p.2.2 = dist p.1 p.2.1 := by
      simp only [od_pairs, List.mem_flatMap, List.mem_map] at hpm
      obtain ⟨s', _, e', _, rfl⟩ := hpm
      rfl
    rw [hpo, hpd, hq] at hform
    rw [hform] at hpc
    simp only [decide_eq_true_eq] at hpc
    exact absurd hpc (not_lt.mpr hqle)

/-- Witness for C2 (amended): an identical pair with reported cost 7 gets a
row with cost exactly 0. -/
theorem od_identical_pair_cost_forced_zero_witness :
    ∃ r ∈ od_cost_matrix [(0, ((5 : Int), (5 : Int)))] [(1, (5, 5))]
        (fun _ _ => .fin 7) none none,
      r.origin = 0 ∧ r.destination = 1 ∧ r.cost = some 0 :=
  (od_identical_pair_cost_forced_zero [(0, (5, 5))] [(1, (5, 5))]
      (fun _ _ => .fin 7) (0, (5, 5)) (1, (5, 5))
      (by decide) (by decide) (by decide) (by decide) rfl).1
    (Or.inr ⟨7, rfl, by decide⟩)

/-! ### Claim C8: destination_count trimming -/

theorem insert_le_perm {α : Type} (le : α → α → Bool) (x : α) (l : List α) :
    (insert_le le x l).Perm (x :: l) := by
  induction l with
  | nil => exact List.Perm.refl _
  | cons y ys ih =>
    simp only [insert_le]
    by_cases h : le x y
    · rw [if_pos h]
    · rw [if_neg h]
      exact (ih.cons y).trans (List.Perm.swap x y ys)

theorem sort_by_perm {α : Type} (le : α → α → Bool) (l : List α) :
    (sort_by le l).Perm l := by
  induction l with
  | nil => exact List.Perm.refl _
  | cons x xs ih =>
    exact (insert_le_perm le x (sort_by le xs)).trans (ih.cons x)

theorem first_min_row_mem : ∀ {l : List ODRow} {r : ODRow},
    first_min_row l = some r → r ∈ l
  | [], r, h => by cases h
  | x :: xs, r, h => by
    simp only [first_min_row] at h
    cases hm : first_min_row xs with
    | none =>
      rw [hm] at h
      obtain rfl := Option.some.inj h
      exact List.mem_cons_self _ _
    | some m =>
      rw [hm] at h
      dsimp only at h
      by_cases hlt : m.cost.getD 0 < x.cost.getD 0
      · rw [if_pos hlt] at h
        obtain rfl := Option.some.inj h
        exact List.mem_cons_of_mem _ (first_min_row_mem hm)
      · rw [if_neg hlt] at h
        obtain rfl := Option.some.inj h
        exact List.mem_cons_self _ _

theorem first_min_row_isSome {l : List ODRow} (h : l ≠ []) :
    (first_min_row l).isSome = true := by
  cases l with
  | nil => exact absurd rfl h
  | cons x xs =>
    simp only [first_min_row]
    cases hm : first_min_row xs with
    | none => rfl
    | some m =>
      dsimp only
      by_cases hlt : m.cost.getD 0 < x.cost.getD 0
      · rw [if_pos hlt]; rfl
      · rw [if_neg hlt]; rfl

/-- The identical-point forcing step does not touch the origin column. -/
theorem force_zero_origin (starts ends : List (Nat × Coord)) (l : List ODRow) :
    (od_force_zero starts ends l).map (·.origin) = l.map (·.origin) := by
  induction l with
  | nil => rfl
  | cons x xs ih =>
    simp only [od_force_zero, List.map_cons] at ih ⊢
    have hx : (match lookup_last x.origin starts, lookup_last x.destination ends with
        | some g1, some g2 => if g1 = g2 then { x with cost := some 0 } else x
        | _, _ => x).origin = x.origin := by
      cases lookup_last x.origin starts <;> cases lookup_last x.destination ends <;>
        simp
      split <;> rfl
    rw [hx, ih]

/-- The origins of the per-group minima are the group keys that have a
non-empty group. -/
theorem filterMap_first_min_origin (kept : List ODRow) (keys : List Nat) :
    (keys.filterMap
        (fun o => first_min_row (kept.filter (fun r => r.origin == o)))).map
          (·.origin)
      = keys.filter
          (fun o => (first_min_row (kept.filter (fun r => r.origin == o))).isSome) := by
  induction keys with
  | nil => rfl
  | cons o os ih =>
    simp only [List.filterMap_cons, List.filter_cons]
    cases hm : first_min_row (kept.filter (fun r => r.origin == o)) with
    | none => simpa using ih
    | some r =>
      have hro : r.origin = o := by
        have := first_min_row_mem hm
        have := (List.mem_filter.mp this).2
        simpa using this
      simp [hro, ih]

/-- Counterexample to C8 as stated: one origin whose only reported cost is
the finite value 0 (not NaN, so the origin is not isolated) contributes no
row at all under destination_count=1, because the `> 0 or NaN` filter
removed its rows before the trimming. -/
theorem destination_count_drops_zero_cost_origin_counterexample :
    od_cost_matrix [(0, ((0 : Int), (0 : Int)))] [(1, (9, 9))]
        (fun _ _ => .fin 0) none (some 1) = []
    ∧ (od_pairs [(0, ((0 : Int), (0 : Int)))] [(1, (9, 9))]
        (fun _ _ => .fin 0)).map (fun p => p.2.2) = [RawCost.fin 0] := by
  constructor
  · decide
  · decide

/-- Claim C8 as amended: with destination_count=1 (and no cutoff) the
returned table has exactly one row per origin that has at least one
strictly positive finite reported cost — the origin column is duplicate-
free, and an origin appears exactly when some destination gives it a
finite cost > 0 (origins whose costs are all NaN, or all ≤ 0, contribute
no row). -/
theorem od_destination_count_one_row_per_positive_origin
    (starts ends : List (Nat × Coord)) (dist : Nat → Nat → RawCost) :
    ((od_cost_matrix starts ends dist none (some 1)).map (·.origin)).Nodup
    ∧ ∀ o : Nat,
        o ∈ (od_cost_matrix starts ends dist none (some 1)).map (·.origin)
          ↔ ∃ s ∈ starts, ∃ e ∈ ends, s.1 = o
              ∧ ∃ q, dist s.1 e.1 = .fin q ∧ 0 < q := by
  have hmap : (od_cost_matrix starts ends dist none (some 1)).map (·.origin)
      = (sort_by (fun a b => a ≤ b) (((od_clean (od_pairs starts ends dist)).filter
            (fun r => r.cost.isSome)).map (·.origin)).dedup).filter
          (fun o => (first_min_row
            (((od_clean (od_pairs starts ends dist)).filter
              (fun r => r.cost.isSome)).filter (fun r => r.origin == o))).isSome) := by
    rw [od_cost_matrix, force_zero_origin]
    simp only [od_cutoff, od_destination_count]
    rw [if_neg (by decide : ¬(1 : Nat) = 0)]
    exact filterMap_first_min_origin _ _
  have hnodup :
      ((sort_by (fun a b => a ≤ b) (((od_clean (od_pairs starts ends dist)).filter
          (fun r => r.cost.isSome)).map (·.origin)).dedup).filter
        (fun o => (first_min_row
          (((od_clean (od_pairs starts ends dist)).filter
            (fun r => r.cost.isSome)).filter (fun r => r.origin == o))).isSome)).Nodup := by
    apply List.Nodup.filter
    exact ((sort_by_perm _ _).nodup_iff).mpr (List.nodup_dedup _)
  have hkept : ∀ o : Nat,
      (o ∈ ((od_clean (od_pairs starts ends dist)).filter
        (fun r => r.cost.isSome)).map (·.origin))
      ↔ ∃ s ∈ starts, ∃ e ∈ ends, s.1 = o
          ∧ ∃ q, dist s.1 e.1 = .fin q ∧ 0 < q := by
    intro o
    constructor
    · intro hm
      obtain ⟨r, hrk, hro⟩ := List.mem_map.mp hm
      obtain ⟨hrc, hrs⟩ := List.mem_filter.mp hrk
      simp only [od_clean, List.mem_map] at hrc
      obtain ⟨p, hpf, rfl⟩ := hrc
      obtain ⟨hpm, hpc⟩ := List.mem_filter.mp hpf
      simp only [od_pairs, List.mem_flatMap, List.mem_map] at hpm
      obtain ⟨s, hs, e, he, rfl⟩ := hpm
      refine ⟨s, hs, e, he, hro, ?_⟩
      cases hq : dist s.1 e.1 with
      | fin q =>
        refine ⟨q, rfl, ?_⟩
        rw [hq] at hpc
        simpa using hpc
      | inf =>
        exfalso
        rw [hq] at hrs
        simp at hrs
    · rintro ⟨s, hs, e, he, rfl, q, hq, hqpos⟩
      apply List.mem_map.mpr
      refine ⟨⟨s.1, e.1, some q⟩, ?_, rfl⟩
      apply List.mem_filter.mpr
      refine ⟨?_, rfl⟩
      simp only [od_clean, List.mem_map]
      refine ⟨(s.1, e.1, dist s.1 e.1), ?_, by rw [hq]⟩
      apply List.mem_filter.mpr
      constructor
      · simp only [od_pairs, List.mem_flatMap, List.mem_map]
        exact ⟨s, hs, e, he, rfl⟩
      · rw [hq]
        simpa using hqpos
  rw [hmap]
  refine ⟨hnodup, ?_⟩
  intro o
  rw [List.mem_filter]
  constructor
  · rintro ⟨hk, _⟩
    exact (hkept o).mp
      (List.mem_dedup.mp ((sort_by_perm _ _).mem_iff.mp hk))
  · intro hrhs
    have hkm : o ∈ ((od_clean (od_pairs starts ends dist)).filter
        (fun r => r.cost.isSome)).map (·.origin) := (hkept o).mpr hrhs
    obtain ⟨r, hrk, hro⟩ := List.mem_map.mp hkm
    have hGne : ((od_clean (od_pairs starts ends dist)).filter
        (fun r => r.cost.isSome)).filter (fun r => r.origin == o) ≠ [] := by
      apply List.ne_nil_of_mem (a := r)
      exact List.mem_filter.mpr ⟨hrk, by simpa using hro⟩
    refine ⟨?_, first_min_row_isSome hGne⟩
    exact (sort_by_perm _ _).mem_iff.mpr (List.mem_dedup.mpr hkm)

/-! ### Claim C4: service-area missing rows, and claim C7: id mapping -/


theorem drop_dups_subset {α β : Type} [DecidableEq β] (key : α → β) :
    ∀ (l : List α) (seen : List β) (x : α), x ∈ drop_dups key l seen → x ∈ l
  | [], _, x, h => by cases h
  | r :: rs, seen, x, h => by
    simp only [drop_dups] at h
    by_cases hk : key r ∈ seen
    · rw [if_pos hk] at h
      exact List.mem_cons_of_mem _ (drop_dups_subset key rs seen x h)
    · rw [if_neg hk] at h
      rcases List.mem_cons.mp h with h | h
      · exact h ▸ List.mem_cons_self _ _
      · exact List.mem_cons_of_mem _ (drop_dups_subset key rs _ x h)

theorem lookup_last_mem_of_some {α : Type} {k : Nat} {v : α} :
    ∀ {l : List (Nat × α)}, lookup_last k l = some v → (k, v) ∈ l
  | [], h => by cases h
  | p :: ps, h => by
    simp only [lookup_last] at h
    cases hm : lookup_last k ps with
    | some w =>
      rw [hm] at h
      obtain rfl := Option.some.inj h
      exact List.mem_cons_of_mem _ (lookup_last_mem_of_some hm)
    | none =>
      rw [hm] at h
      by_cases hk : p.1 = k
      · rw [if_pos hk] at h
        obtain rfl := Option.some.inj h
        have : p = (k, p.2) := by
          cases p
          simp_all
        exact this ▸ List.mem_cons_self _ _
      · rw [if_neg hk] at h
        cases h

/-- Every dissolved group key's origin comes from some input row. -/
theorem mem_sa_dissolve_origin {rows : List SAResultRow}
    {g : Nat × Rat × List Nat} (hg : g ∈ sa_dissolve rows) :
    ∃ r ∈ rows, r.origin = g.1 := by
  simp only [sa_dissolve, List.mem_map] at hg
  obtain ⟨k, hk, rfl⟩ := hg
  have hk2 : k ∈ (rows.map (fun r => (r.origin, r.breakVal))).dedup :=
    (sort_by_perm _ _).mem_iff.mp hk
  have hk3 : k ∈ rows.map (fun r => (r.origin, r.breakVal)) :=
    List.mem_dedup.mp hk2
  obtain ⟨r, hr, rfl⟩ := List.mem_map.mp hk3
  exact ⟨r, hr, rfl⟩

/-- Rows produced by the modelled `_service_area` helper only carry origins
with a non-empty reachable edge set at some break. -/
theorem mem_service_area_rows {reach : Nat → Rat → List (Nat × Nat)}
    {ids : List Nat} {bks : List Rat} {r : SAResultRow}
    (hr : r ∈ service_area_rows reach ids bks) :
    r.origin ∈ ids ∧ ∃ b ∈ bks, reach r.origin b ≠ [] := by
  simp only [service_area_rows, List.mem_flatMap, List.mem_map] at hr
  obtain ⟨o, ho, b, hb, e, he, rfl⟩ := hr
  exact ⟨ho, b, hb, List.ne_nil_of_mem he⟩

theorem filter_eq_single {α : Type} {q : α → Bool} {o : α} :
    ∀ {l : List α}, l.Nodup → o ∈ l → (∀ x ∈ l, q x = true ↔ x = o) →
      l.filter q = [o]
  | [], _, ho, _ => by cases ho
  | x :: xs, hnd, ho, hq => by
    simp only [List.nodup_cons] at hnd
    rcases List.mem_cons.mp ho with h | h
    · subst h
      have hqx : q o = true := (hq o (List.mem_cons_self _ _)).mpr rfl
      have hnil : xs.filter q = [] := by
        rw [List.filter_eq_nil_iff]
        intro a ha hqa
        exact hnd.1 (((hq a (List.mem_cons_of_mem _ ha)).mp hqa) ▸ ha)
      simp [List.filter_cons, hqx, hnil]
    · have hqx : q x = false := by
        cases hqx : q x with
        | false => rfl
        | true =>
          exfalso
          have := (hq x (List.mem_cons_self _ _)).mp hqx
          exact hnd.1 (this ▸ h)
      rw [List.filter_cons_of_neg (by simp [hqx])]
      exact filter_eq_single hnd.2 h (fun a ha => hq a (List.mem_cons_of_mem _ ha))



theorem nat_contains_iff {L : List Nat} {a : Nat} :
    (L.contains a = true) ↔ a ∈ L := by
  simp [List.contains, List.elem_iff]

/-- Claim C4 as amended: in `service_area` (dissolve=True), an origin with
zero reachable edges at every break appears in the result as exactly one
explicit row with null geometry and null break value — a single row, not
one row per requested break — provided some origin has a reachable edge
(when no geometry at all is produced, the missing-row step is skipped and
the raw empty result is returned); reachable origins contribute one row per
(origin, break) group that survives the duplicate-edge drop. -/
theorem service_area_isolated_origin_single_row
    (reach : Nat → Rat → List (Nat × Nat))
    (origins : List (Nat × Nat)) (breaks : List Rat) (o : Nat × Nat)
    (ho : o ∈ origins)
    (hiso : ∀ b ∈ breaks, reach o.1 b = [])
    (hnt : (origins.map Prod.fst).Nodup)
    (hnc : (origins.map Prod.snd).Nodup)
    (hne : service_area_rows reach (origins.map Prod.fst)
        (sort_by (fun a b => a ≤ b) breaks) ≠ []) :
    (service_area reach origins breaks).filter
      (fun r => r.origin == some o.2) = [⟨some o.2, none, none⟩] := by
  have hnores : ∀ r ∈ service_area_rows reach (origins.map Prod.fst)
      (sort_by (fun a b => a ≤ b) breaks), r.origin ≠ o.1 := by
    intro r hr heq
    obtain ⟨-, b, hb, hnil⟩ := mem_service_area_rows hr
    rw [heq] at hnil
    exact hnil (hiso b ((sort_by_perm _ _).mem_iff.mp hb))
  have hdiss : ∀ g ∈ sa_dissolve (drop_dups (fun r => (r.edgeId, r.origin))
      (service_area_rows reach (origins.map Prod.fst)
        (sort_by (fun a b => a ≤ b) breaks)) []), g.1 ≠ o.1 := by
    intro g hg heq
    obtain ⟨r, hr, hro⟩ := mem_sa_dissolve_origin hg
    exact hnores r (drop_dups_subset _ _ _ _ hr) (hro.trans heq)
  have hemp : (service_area_rows reach (origins.map Prod.fst)
      (sort_by (fun a b => a ≤ b) breaks)).isEmpty = false := by
    rw [List.isEmpty_eq_false]
    exact hne
  simp only [service_area, hemp, Bool.false_eq_true, if_false]
  rw [List.filter_map, List.filter_append, List.filter_map, List.filter_map]
  simp only [Function.comp_def]
  have hA : List.filter
      (fun x : Nat × Rat × List Nat => lookup_last x.1 origins == some o.2)
      (sa_dissolve (drop_dups (fun r => (r.edgeId, r.origin))
        (service_area_rows reach (origins.map Prod.fst)
          (sort_by (fun a b => a ≤ b) breaks)) [])) = [] := by
    rw [List.filter_eq_nil_iff]
    intro g hg hgq
    have hlk : lookup_last g.1 origins = some o.2 := by
      simpa using hgq
    have hmem : (g.1, o.2) ∈ origins := lookup_last_mem_of_some hlk
    have heq : (g.1, o.2) = o :=
      List.inj_on_of_nodup_map hnc hmem ho rfl
    exact hdiss g hg (congrArg Prod.fst heq)
  rw [hA, List.filter_filter]
  have hB : List.filter
      (fun a : Nat × Nat =>
        lookup_last a.1 origins == some o.2 &&
          !(((sa_dissolve (drop_dups (fun r => (r.edgeId, r.origin))
              (service_area_rows reach (origins.map Prod.fst)
                (sort_by (fun a b => a ≤ b) breaks)) [])).map
                (fun g => g.1)).contains a.1))
      origins = [o] := by
    apply filter_eq_single (List.Nodup.of_map _ hnc) ho
    intro x hx
    constructor
    · intro hq
      simp only [Bool.and_eq_true] at hq
      obtain ⟨hq1, hq2⟩ := hq
      have hl : lookup_last x.1 origins = some o.2 := by
        simpa using hq1
      rw [lookup_last_of_nodup hnt hx] at hl
      have hx2 : x.2 = o.2 := by
        simpa using hl
      exact List.inj_on_of_nodup_map hnc hx ho hx2
    · rintro rfl
      simp only [Bool.and_eq_true]
      constructor
      · rw [lookup_last_of_nodup hnt hx]
        simp
      · cases hc : (((sa_dissolve (drop_dups (fun r => (r.edgeId, r.origin))
            (service_area_rows reach (origins.map Prod.fst)
              (sort_by (fun a b => a ≤ b) breaks)) [])).map
                (fun g => g.1)).contains x.1) with
        | false => rfl
        | true =>
          exfalso
          have hmem := nat_contains_iff.mp hc
          obtain ⟨g, hg, hgx⟩ := List.mem_map.mp hmem
          exact hdiss g hg hgx
  rw [hB]
  simp only [List.map_nil, List.map_cons, List.nil_append]
  rw [lookup_last_of_nodup hnt ho]



/-- Counterexample to C4 as stated: two origins and breaks [5, 10], where
origin 10 reaches an edge at each break and origin 11 reaches nothing —
the result has 3 rows, not one row per origin per break (4): the isolated
origin gets a single null row without a break value, because the appended
missing rows carry only the origin column. -/
theorem service_area_missing_rows_counterexample :
    (service_area
        (fun o b => if o = 10 then
          (if b ≤ 5 then [(100, 1000)] else [(100, 1000), (101, 1001)]) else [])
        [(10, 0), (11, 1)] [5, 10]).length = 3
    ∧ ((service_area
        (fun o b => if o = 10 then
          (if b ≤ 5 then [(100, 1000)] else [(100, 1000), (101, 1001)]) else [])
        [(10, 0), (11, 1)] [5, 10]).filter (fun r => r.origin == some 1)).length = 1
    ∧ ([(5 : Rat), 10] : List Rat).length = 2 := by
  refine ⟨?_, ?_, ?_⟩ <;> decide

/-- Witness for C4 (amended): the isolated origin of the two-origin,
two-break input appears exactly once, with null geometry and break. -/
theorem service_area_isolated_origin_single_row_witness :
    (service_area
        (fun o b => if o = 10 then
          (if b ≤ 5 then [(100, 1000)] else [(100, 1000), (101, 1001)]) else [])
        [(10, 0), (11, 1)] [5, 10]).filter (fun r => r.origin == some 1)
      = [⟨some 1, none, none⟩] :=
  service_area_isolated_origin_single_row
    (fun o b => if o = 10 then
      (if b ≤ 5 then [(100, 1000)] else [(100, 1000), (101, 1001)]) else [])
    [(10, 0), (11, 1)] [5, 10] (11, 1) (by decide) (by decide) (by decide)
    (by decide) (by decide)



theorem lookup_last_isSome_of_key {α : Type} {k : Nat} :
    ∀ {l : List (Nat × α)}, k ∈ l.map Prod.fst → (lookup_last k l).isSome = true
  | [], h => by cases h
  | p :: ps, h => by
    simp only [lookup_last]
    cases hm : lookup_last k ps with
    | some w => rfl
    | none =>
      rcases (by simpa using h : k = p.1 ∨ k ∈ ps.map Prod.fst) with h1 | h1
      · simp [h1]
      · have := lookup_last_isSome_of_key h1
        rw [hm] at this
        cases this

theorem lookup_last_pair_of_key {α : Type} {k : Nat} {l : List (Nat × α)}
    (h : k ∈ l.map Prod.fst) :
    ∃ p ∈ l, p.1 = k ∧ lookup_last k l = some p.2 := by
  obtain ⟨v, hv⟩ := Option.isSome_iff_exists.mp (lookup_last_isSome_of_key h)
  exact ⟨(k, v), lookup_last_mem_of_some hv, rfl, hv⟩

/-- Claim C7: the origin and destination columns of every result row carry
the caller's original point-table index values, never the internal temp
ids — for od_cost_matrix (and the route methods, which share lines 465-466)
every helper row whose ids are origin/destination temp ids is mapped
through the idx dicts onto caller indices, and every service_area result
row's origin is a caller index. -/
theorem result_ids_are_caller_indices
    (origins destinations : List (Nat × Nat)) (results : List ODRow)
    (h1 : ∀ r ∈ results, r.origin ∈ origins.map Prod.fst)
    (h2 : ∀ r ∈ results, r.destination ∈ destinations.map Prod.fst)
    (reach : Nat → Rat → List (Nat × Nat)) (sa_origins : List (Nat × Nat))
    (breaks : List Rat) :
    (∀ m ∈ map_result_ids origins destinations results,
        (∃ p ∈ origins, m.origin = some p.2)
        ∧ (∃ p ∈ destinations, m.destination = some p.2))
    ∧ (∀ m ∈ service_area reach sa_origins breaks,
        ∃ p ∈ sa_origins, m.origin = some p.2) := by
  constructor
  · intro m hm
    simp only [map_result_ids, List.mem_map] at hm
    obtain ⟨r, hr, rfl⟩ := hm
    obtain ⟨p1, hp1, -, hl1⟩ := lookup_last_pair_of_key (h1 r hr)
    obtain ⟨p2, hp2, -, hl2⟩ := lookup_last_pair_of_key (h2 r hr)
    exact ⟨⟨p1, hp1, hl1⟩, ⟨p2, hp2, hl2⟩⟩
  · intro m hm
    simp only [service_area] at hm
    by_cases hemp : (service_area_rows reach (sa_origins.map Prod.fst)
        (sort_by (fun a b => a ≤ b) breaks)).isEmpty
    · rw [if_pos hemp] at hm
      cases hm
    · rw [if_neg hemp] at hm
      simp only [List.mem_map, List.mem_append] at hm
      obtain ⟨t, ht, rfl⟩ := hm
      rcases ht with ⟨g, hg, rfl⟩ | ⟨o', ho', rfl⟩
      · obtain ⟨r, hr, hro⟩ := mem_sa_dissolve_origin hg
        have hkey : g.1 ∈ sa_origins.map Prod.fst := by
          have := (mem_service_area_rows (drop_dups_subset _ _ _ _ hr)).1
          rw [hro] at this
          exact this
        obtain ⟨p, hp, -, hl⟩ := lookup_last_pair_of_key hkey
        exact ⟨p, hp, hl⟩
      · have ho'' : o' ∈ sa_origins := List.mem_filter.mp ho' |>.1
        have hkey : o'.1 ∈ sa_origins.map Prod.fst :=
          List.mem_map.mpr ⟨o', ho'', rfl⟩
        obtain ⟨p, hp, -, hl⟩ := lookup_last_pair_of_key hkey
        exact ⟨p, hp, hl⟩

/-- Witness for C7: concrete one-row tables on both query paths. -/
theorem result_ids_are_caller_indices_witness :
    (∀ m ∈ map_result_ids [(7, 0)] [(8, 1)] [⟨7, 8, some 3⟩],
        (∃ p ∈ [((7 : Nat), (0 : Nat))], m.origin = some p.2)
        ∧ (∃ p ∈ [((8 : Nat), (1 : Nat))], m.destination = some p.2))
    ∧ (∀ m ∈ service_area (fun _ _ => [(100, 1000)]) [(9, 2)] [5],
        ∃ p ∈ [((9 : Nat), (2 : Nat))], m.origin = some p.2) :=
  result_ids_are_caller_indices [(7, 0)] [(8, 1)] [⟨7, 8, some 3⟩]
    (by decide) (by decide) (fun _ _ => [(100, 1000)]) [(9, 2)] [5]


end Sgis
